import Mathlib

set_option maxRecDepth 4000

namespace Wortschatz

/- Shallow embedding of the vocabulary-drill application in
   WortschatzApp_Streamlit_Repo/app.py.  Pure helper functions of the source
   are translated to Lean functions; the session-state mutations of the game
   handlers become explicit state-passing functions on record types.  The
   Unicode-dependent Python primitives (str.lower, str.isalpha, the regex
   classes, unicodedata NFKD) are modelled character-wise over the ASCII and
   Latin-1 letter repertoire that the German/English/French vocabulary data
   of this application uses. -/

/-- Whitespace characters recognized by the Python functions used by the code
(str.strip with no argument and the regex class for whitespace), restricted to
the ASCII repertoire of the application data. -/
def isSpacePy (c : Char) : Bool :=
  c == ' ' || c == '\t' || c == '\n' || c == '\r' || c == '\x0b' || c == '\x0c'

/-- Uppercase-to-lowercase character table modelling Python str.lower over
ASCII letters plus the Latin-1 letters of the application domain. -/
def upperLowerPairs : List (Char × Char) :=
  [('A', 'a'), ('B', 'b'), ('C', 'c'), ('D', 'd'), ('E', 'e'), ('F', 'f'),
   ('G', 'g'), ('H', 'h'), ('I', 'i'), ('J', 'j'), ('K', 'k'), ('L', 'l'),
   ('M', 'm'), ('N', 'n'), ('O', 'o'), ('P', 'p'), ('Q', 'q'), ('R', 'r'),
   ('S', 's'), ('T', 't'), ('U', 'u'), ('V', 'v'), ('W', 'w'), ('X', 'x'),
   ('Y', 'y'), ('Z', 'z'),
   ('Ä', 'ä'), ('Ö', 'ö'), ('Ü', 'ü'), ('É', 'é'), ('È', 'è'), ('Ê', 'ê'),
   ('Ë', 'ë'), ('À', 'à'), ('Â', 'â'), ('Î', 'î'), ('Ï', 'ï'), ('Ô', 'ô'),
   ('Û', 'û'), ('Ù', 'ù'), ('Ç', 'ç')]

/-- Model of Python str.lower at character level. -/
def toLowerPy (c : Char) : Char :=
  match upperLowerPairs.find? (fun p => p.1 == c) with
  | some p => p.2
  | none => c

/-- Canonical decomposition table modelling unicodedata.normalize with the
NFKD form at character level: a precomposed lowercase Latin letter becomes its
base letter followed by a combining mark (only lowercase letters can reach the
decomposition step of normalize_text, because str.lower runs first). -/
def nfkdPairs : List (Char × List Char) :=
  [('ä', ['a', '̈']), ('ö', ['o', '̈']), ('ü', ['u', '̈']),
   ('é', ['e', '́']), ('è', ['e', '̀']), ('ê', ['e', '̂']),
   ('ë', ['e', '̈']), ('à', ['a', '̀']), ('â', ['a', '̂']),
   ('î', ['i', '̂']), ('ï', ['i', '̈']), ('ô', ['o', '̂']),
   ('û', ['u', '̂']), ('ù', ['u', '̀']), ('ç', ['c', '̧'])]

/-- NFKD decomposition of one character. -/
def nfkdChar (c : Char) : List Char :=
  match nfkdPairs.find? (fun p => p.1 == c) with
  | some p => p.2
  | none => [c]

/-- NFKD decomposition of a character list, as performed by
unicodedata.normalize on the whole string inside normalize_text. -/
def nfkdL : List Char → List Char
  | [] => []
  | c :: cs => nfkdChar c ++ nfkdL cs

/-- Non-ASCII letters of the application domain, used to model the Unicode
word and alphabetic character classes of Python. -/
def extraLetters : List Char :=
  ['ä', 'ö', 'ü', 'ß', 'é', 'è', 'ê', 'ë', 'à', 'â', 'î', 'ï', 'ô', 'û', 'ù',
   'ç', 'Ä', 'Ö', 'Ü', 'É', 'È', 'Ê', 'Ë', 'À', 'Â', 'Î', 'Ï', 'Ô', 'Û', 'Ù',
   'Ç']

/-- Model of the Python regex word-character class: ASCII alphanumerics,
underscore and the Unicode letters of the domain.  Combining marks are not
word characters, which is what makes normalize_text strip diacritics. -/
def isWordPy (c : Char) : Bool :=
  c.isAlphanum || c == '_' || extraLetters.contains c

/-- Model of the Python str.isalpha test used by the hangman display and win
condition. -/
def isAlphaPy (c : Char) : Bool :=
  c.isAlpha || extraLetters.contains c

/-- Characters kept by the substitution of normalize_text, which removes every
character outside word characters, whitespace, slash and hyphen (app.py line
115). -/
def allowedChar (c : Char) : Bool :=
  isWordPy c || isSpacePy c || c == '/' || c == '-'

/-- Recursive trailing-whitespace trimmer, one half of the Python strip. -/
def trimEnd : List Char → List Char
  | [] => []
  | c :: cs =>
    match trimEnd cs with
    | [] => if isSpacePy c then [] else [c]
    | x :: xs => c :: x :: xs

/-- Model of Python str.strip with no argument: removes leading and trailing
whitespace. -/
def stripPy (l : List Char) : List Char :=
  trimEnd (l.dropWhile isSpacePy)

/-- Model of the final substitution of normalize_text (app.py line 116),
which replaces every maximal whitespace run with a single space. -/
def collapseWs : List Char → List Char
  | [] => []
  | [c] => if isSpacePy c then [' '] else [c]
  | a :: b :: rest =>
    if isSpacePy a then
      if isSpacePy b then collapseWs (b :: rest)
      else ' ' :: collapseWs (b :: rest)
    else a :: collapseWs (b :: rest)

/-- Absence of two adjacent whitespace characters, the shape invariant the
whitespace-collapsing substitution establishes. -/
def noTwoSpaces : List Char → Bool
  | a :: b :: rest => (!(isSpacePy a && isSpacePy b)) && noTwoSpaces (b :: rest)
  | _ => true

/-- Character-list level body of normalize_text (app.py lines 110-117):
strip, lowercase, NFKD-decompose, remove characters outside
word/space/slash/hyphen, collapse whitespace runs. -/
def normalizeL (l : List Char) : List Char :=
  collapseWs (((nfkdL ((stripPy l).map toLowerPy)).filter allowedChar))

/-- The function normalize_text of app.py.  Non-string input returns the
empty string in Python; the Lean embedding is typed, so only the string case
remains. -/
def normalize_text (s : String) : String :=
  ⟨normalizeL s.data⟩

/-- Model of Python str.strip at string level. -/
def strip_string (s : String) : String :=
  ⟨stripPy s.data⟩

/-- Model of Python str.lower at string level. -/
def lower_string (s : String) : String :=
  ⟨s.data.map toLowerPy⟩

/- ==================== CSV loading (load_and_preprocess_df) ==================== -/

/-- One cell of a parsed CSV table as pandas represents it: a missing value
(NaN), the Python object None (a synthesized missing column, app.py line 296),
or a string. -/
inductive Cell where
  | nan : Cell
  | pyNone : Cell
  | str : String → Cell
deriving DecidableEq

/-- Model of the pandas astype conversion of an object cell to str: NaN
prints as the literal string nan, None as the literal string None. -/
def py_str_cell : Cell → String
  | .nan => "nan"
  | .pyNone => "None"
  | .str s => s

/-- Whether pandas dropna counts the cell as missing. -/
def cell_isna : Cell → Bool
  | .nan => true
  | .pyNone => true
  | .str _ => false

/-- Integer parsing used to model pandas to_numeric with coercion on the
classe and page columns: surrounding whitespace is ignored, an optional minus
sign and a nonempty digit string parse to an integer, anything else coerces to
missing.  Fractional literals of the source data are out of the modelled
repertoire. -/
def parse_int_py (s : String) : Option Int :=
  let t := stripPy s.data
  match t with
  | '-' :: ds => if ds ≠ [] ∧ ds.all Char.isDigit
      then some (-(ds.foldl (fun n c => 10 * n + (c.toNat - 48)) 0 : Nat)) else none
  | ds => if ds ≠ [] ∧ ds.all Char.isDigit
      then some ((ds.foldl (fun n c => 10 * n + (c.toNat - 48)) 0 : Nat)) else none

/-- Model of pd.to_numeric with error coercion on one cell. -/
def to_numeric_cell : Cell → Option Int
  | .nan => none
  | .pyNone => none
  | .str s => parse_int_py s

/-- One row of the parsed table after the column-header mapping of app.py
lines 278-297: the four canonical columns classe, page, de, en.  Synonym
headers are mapped onto these names by the source before this stage, and a
file lacking one of them carries the pyNone cell in that column. -/
structure PreRow where
  classe : Cell
  page : Cell
  de : Cell
  en : Cell
deriving DecidableEq

/-- One output row of the loader after preprocessing. -/
structure VocabRow where
  classe : Option Int
  page : Option Int
  de : String
  en : String
deriving DecidableEq

/-- The astype-str plus strip step applied to the de and en columns
(app.py lines 299-300). -/
def strip_de_en (r : PreRow) : PreRow :=
  { r with de := .str (strip_string (py_str_cell r.de)),
           en := .str (strip_string (py_str_cell r.en)) }

/-- The per-row total transformation the preprocessing applies. -/
def row_transform (r : PreRow) : VocabRow :=
  { classe := to_numeric_cell r.classe,
    page := to_numeric_cell r.page,
    de := strip_string (py_str_cell r.de),
    en := strip_string (py_str_cell r.en) }

/-- The row pipeline of load_and_preprocess_df after column mapping
(app.py lines 298-309): stringify and trim de and en, drop rows where both of
de and en are missing, coerce classe and page to numbers. -/
def load_post (rows : List PreRow) : List VocabRow :=
  let rows1 := rows.map strip_de_en
  let rows2 := rows1.filter (fun r => !(cell_isna r.de && cell_isna r.en))
  rows2.map (fun r =>
    { classe := to_numeric_cell r.classe,
      page := to_numeric_cell r.page,
      de := py_str_cell r.de,
      en := py_str_cell r.en })

/-- Delimiter argument of a read_csv attempt: automatic sniffing, an explicit
semicolon or an explicit comma. -/
inductive CsvSep where
  | auto : CsvSep
  | semicolon : CsvSep
  | comma : CsvSep
deriving DecidableEq

/-- Encoding argument of a read_csv attempt. -/
inductive CsvEncoding where
  | utf8 : CsvEncoding
  | latin1 : CsvEncoding
deriving DecidableEq

/-- The delimiter and encoding combinations load_and_preprocess_df tries, in
order (app.py lines 259-276): automatic detection with UTF-8, semicolon with
UTF-8, comma with UTF-8, automatic detection with ISO-8859-1. -/
def attempt_sequence : List (CsvSep × CsvEncoding) :=
  [(.auto, .utf8), (.semicolon, .utf8), (.comma, .utf8), (.auto, .latin1)]

/-- The nested try-except chain of load_and_preprocess_df around pd.read_csv,
parameterized by an oracle giving the parse outcome of each delimiter and
encoding combination (none models a raised parser exception). -/
def read_csv_fallback (read : CsvSep → CsvEncoding → Option (List PreRow)) :
    Option (List PreRow) :=
  match read .auto .utf8 with
  | some t => some t
  | none =>
    match read .semicolon .utf8 with
    | some t => some t
    | none =>
      match read .comma .utf8 with
      | some t => some t
      | none => read .auto .latin1

/-- Result of loading one file: the preprocessed rows and whether the
user-facing warning of app.py line 275 was surfaced. -/
structure LoadResult where
  rows : List VocabRow
  warned : Bool
deriving DecidableEq

/-- The function load_and_preprocess_df of app.py, parameterized by the parse
oracle: when every read attempt fails, the file contributes an empty table
and a warning instead of an exception. -/
def load_and_preprocess_df (read : CsvSep → CsvEncoding → Option (List PreRow)) :
    LoadResult :=
  match read_csv_fallback read with
  | none => { rows := [], warned := true }
  | some t => { rows := load_post t, warned := false }

/- ==================== Subset sampling (_sample_subset) ==================== -/

/-- A vocabulary pair as the memory game passes it to the sampler. -/
structure VItem where
  de : String
  en : String
deriving DecidableEq

/-- Model of the Python dict get with empty-string default used by
_hash_dict_list. -/
def vget (it : VItem) (k : String) : String :=
  if k = "de" then it.de else if k = "en" then it.en else ""

/-- The function _hash_dict_list of app.py feeds, for every item, the key
values joined with a double bar into a running sha256.  The fingerprint is
modelled by the byte stream itself (the digest of equal streams is equal, and
the code only ever compares fingerprints for equality). -/
def hash_dict_list (items : List VItem) (keys : List String) : String :=
  String.join (items.map (fun it => String.intercalate "||" (keys.map (vget it))))

/-- The session-state record _sample_subset caches under its state key. -/
structure SubsetState where
  base_hash : String
  mode : String
  k : Int
  subset : List VItem
deriving DecidableEq

/-- The recomputation test of _sample_subset (app.py lines 362-367): a new
subset is drawn when no cached state exists, or the fingerprint, the mode or,
in k-mode, the requested size changed. -/
def needs_new (h : String) (mode : String) (k : Int) : Option SubsetState → Bool
  | none => true
  | some s => s.base_hash != h || s.mode != mode || (mode == "k" && s.k != k)

/-- The recomputation branch of _sample_subset (app.py lines 372-379): whole
page for all-mode, an oversized or degenerate k, otherwise a seeded shuffle of
the index range truncated to at least two pairs.  The pseudo-random generator
seeded from the seed value is passed in as the shuffle function. -/
def fresh_subset (shuffle : List Nat → List Nat) (items : List VItem)
    (mode : String) (k : Int) : List VItem :=
  if mode = "all" ∨ k ≥ items.length ∨ k ≤ 1 then items
  else ((shuffle (List.range items.length)).take (max 2 k.toNat)).filterMap
    (fun i => items.get? i)

/-- The function _sample_subset of app.py with the session state passed
explicitly: returns the chosen subset and the cache record stored under the
state key. -/
def sample_subset (shuffle : List Nat → List Nat) (items : List VItem)
    (mode : String) (k : Int) (st : Option SubsetState) :
    List VItem × SubsetState :=
  let h := hash_dict_list items ["de", "en"]
  if needs_new h mode k st then
    let subset := fresh_subset shuffle items mode k
    (subset, { base_hash := h, mode := mode, k := k, subset := subset })
  else
    match st with
    | some s => (s.subset, s)
    | none => ([], { base_hash := h, mode := mode, k := k, subset := [] })

/- ==================== Stopwatch timer ==================== -/

/-- The per-round timer dictionary of the games. -/
structure StopwatchTimer where
  running : Bool
  started_ms : Int
  elapsed_ms : Int
deriving DecidableEq

/-- The stop-and-freeze step the hangman handlers perform on solving
(app.py lines 476-478 and 501-503): a running timer folds the current
interval into the elapsed time and stops. -/
def stop_freeze (now_ms : Int) (t : StopwatchTimer) : StopwatchTimer :=
  if t.running then { t with elapsed_ms := now_ms - t.started_ms, running := false }
  else t

/- ==================== Hangman (game_hangman) ==================== -/

/-- The per-word hangman round state kept in the session (app.py lines
406-416), restricted to the fields the guessing logic mutates. -/
structure HangmanState where
  guessed : List Char
  fails : Nat
  solved : Bool
  timer : StopwatchTimer
deriving DecidableEq

/-- The fresh per-word state _set_word establishes. -/
def hangman_init : HangmanState :=
  { guessed := [], fails := 0, solved := false,
    timer := { running := false, started_ms := 0, elapsed_ms := 0 } }

/-- The win test of app.py line 500: every character of the solution is
either non-alphabetic or its lowercase form has been guessed. -/
def hangman_win_check (solution : String) (guessed : List Char) : Bool :=
  solution.data.all (fun c => !(isAlphaPy c) || guessed.contains (toLowerPy c))

/-- The letter-button handler of game_hangman (app.py lines 493-507): a
letter occurring in the normalized solution joins the guessed set, any other
letter costs one fail; afterwards the win test runs and on success the round
is marked solved with the timer frozen. -/
def guess_letter (solution : String) (letter : Char) (now_ms : Int)
    (st : HangmanState) : HangmanState :=
  let st1 :=
    if (normalize_text solution).data.contains letter then
      { st with guessed := if st.guessed.contains letter then st.guessed
                           else letter :: st.guessed }
    else { st with fails := st.fails + 1 }
  if hangman_win_check solution st1.guessed then
    { st1 with solved := true, timer := stop_freeze now_ms st1.timer }
  else st1

/-- The full-word form handler of game_hangman (app.py lines 471-482): when
the round is not yet solved and the normalized guess equals the normalized
solution, the round is solved and the timer frozen; otherwise only a warning
is shown and the state is unchanged. -/
def guess_full_word (solution : String) (guess : String) (now_ms : Int)
    (st : HangmanState) : HangmanState :=
  if st.solved then st
  else if normalize_text guess = normalize_text solution then
    { st with solved := true, timer := stop_freeze now_ms st.timer }
  else st

/-- The win condition in the words of the specification, stated for
comparison with hangman_win_check: every alphabetic character of the target,
case-folded and diacritic-folded to its base letters, is contained in the
guessed set. -/
def spec_win_check (solution : String) (guessed : List Char) : Bool :=
  solution.data.all (fun c => !(isAlphaPy c) ||
    ((nfkdChar (toLowerPy c)).filter isAlphaPy).all (fun b => guessed.contains b))

/- ==================== Input quiz (game_input) ==================== -/

/-- A vocabulary pair of the input quiz. -/
structure QuizItem where
  de : String
  en : String
deriving DecidableEq

/-- One record of the history table of the input quiz. -/
structure HistRec where
  de : String
  user : String
  en : String
  result : String
deriving DecidableEq

/-- The session state of game_input (app.py lines 835-844). -/
structure InputState where
  items : List QuizItem
  order : List Nat
  index : Nat
  score : Nat
  total : Nat
  history : List HistRec
  timer : StopwatchTimer
deriving DecidableEq

/-- The item the quiz currently asks: the traversal order entry at the
current position, looked up in the item list (app.py lines 866-867).  The
handlers below only run while the UI renders them, which requires this lookup
to succeed. -/
def current_item (st : InputState) : Option QuizItem :=
  (st.order.get? st.index).bind (fun idx => st.items.get? idx)

/-- The skip-button handler of game_input (app.py lines 872-876): one history
record with the Skipped result and an empty user answer, and the position
advances. -/
def quiz_skip (st : InputState) : InputState :=
  match current_item st with
  | none => st
  | some item =>
    { st with
      history := st.history ++ [{ de := item.de, user := "", en := item.en,
                                  result := "Skipped" }],
      index := st.index + 1 }

/-- The submission handler of game_input (app.py lines 885-897): the total
counter always advances, the normalized user answer is compared with the
normalized accepted string as a whole, the score advances on a match, one
history record is appended and the position advances. -/
def quiz_submit (user : String) (st : InputState) : InputState :=
  match current_item st with
  | none => st
  | some item =>
    let ok := normalize_text user = normalize_text item.en
    { st with
      total := st.total + 1,
      score := st.score + (if ok then 1 else 0),
      history := st.history ++ [{ de := item.de, user := user, en := item.en,
                                  result := if ok then "Correct" else "Wrong" }],
      index := st.index + 1 }

/- ==================== Irregular verbs (game_irregulars_assign) ============= -/

/-- One entry of the fixed verb table VERBS of app.py. -/
structure Verb where
  infinitive : String
  pastSimple : String
  pastParticiple : String
  meaning : String
deriving DecidableEq

/-- The first entry of VERBS (app.py line 44), the verb the specification
examples use. -/
def verb_be : Verb :=
  { infinitive := "be", pastSimple := "was/were", pastParticiple := "been",
    meaning := "sein" }

/-- The dictionary lookup verb of target key performed by allowed_forms.  The
call sites only pass the four field names. -/
def verb_field (v : Verb) (key : String) : String :=
  if key = "infinitive" then v.infinitive
  else if key = "pastSimple" then v.pastSimple
  else if key = "pastParticiple" then v.pastParticiple
  else if key = "meaning" then v.meaning
  else ""

/-- Model of the Python str.split on a slash at character-list level: the
empty string yields one empty part, and every slash opens a new part. -/
def split_slash : List Char → List (List Char)
  | [] => [[]]
  | c :: cs =>
    if c = '/' then [] :: split_slash cs
    else
      match split_slash cs with
      | [] => [[c]]
      | p :: ps => (c :: p) :: ps

/-- Slash splitting at string level. -/
def string_split_slash (s : String) : List String :=
  (split_slash s.data).map (fun l => ⟨l⟩)

/-- The helper allowed_forms of game_irregulars_assign (app.py lines
1020-1025): the raw field, and additionally, for every target other than the
meaning, every stripped slash-separated part when the field contains a slash;
everything normalized. -/
def allowed_forms (target_key : String) (v : Verb) : List String :=
  (if target_key ≠ "meaning" ∧ (verb_field v target_key).data.contains '/' then
    verb_field v target_key :: (string_split_slash (verb_field v target_key)).map strip_string
  else [verb_field v target_key]).map normalize_text

/-- The acceptance test of the irregular-verb game (app.py lines 1027-1029):
the normalized tile text is a member of the allowed forms. -/
def is_accepted_form (target_key : String) (v : Verb) (tile : String) : Bool :=
  (allowed_forms target_key v).contains (normalize_text tile)

/- ==================== File discovery (get_vocab_file_info) ================= -/

/-- Digit-string to number conversion used when the regex groups are fed to
int. -/
def nat_of_digits (l : List Char) : Nat :=
  l.foldl (fun n c => 10 * n + (c.toNat - 48)) 0

/-- Model of the regex match of KLASSE_REGEX (app.py line 188) against an
already lowercased directory name: the literal klasse, one or more digits, an
optional underscore, an optional course token and the end of the string.
Returns the class number and the raw course group (empty when absent). -/
def klasse_match (l : List Char) : Option (Nat × String) :=
  if l.take 6 = "klasse".data then
    let rest := l.drop 6
    let ds := rest.takeWhile Char.isDigit
    let rest2 := rest.dropWhile Char.isDigit
    if ds.isEmpty then none
    else
      let rest3 := match rest2 with
        | '_' :: t => t
        | t => t
      if rest3.isEmpty then some (nat_of_digits ds, "")
      else if rest3 = "e".data then some (nat_of_digits ds, "e")
      else if rest3 = "g".data then some (nat_of_digits ds, "g")
      else if rest3 = "französisch".data then some (nat_of_digits ds, "französisch")
      else if rest3 = "franzoesisch".data then some (nat_of_digits ds, "franzoesisch")
      else none
  else none

/-- Model of the regex match of the old-schema directory pattern (app.py line
227): the literal klasse, digits and the end of the string. -/
def klasse_match_old (l : List Char) : Option Nat :=
  if l.take 6 = "klasse".data then
    let rest := l.drop 6
    if ¬rest.isEmpty ∧ rest.all Char.isDigit then some (nat_of_digits rest)
    else none
  else none

/-- Case-insensitive test whether the list starts with the letters of page
followed by at least one digit; returns the digit run value. -/
def page_at (l : List Char) : Option Nat :=
  match l with
  | p :: a :: g :: e :: rest =>
    if toLowerPy p = 'p' ∧ toLowerPy a = 'a' ∧ toLowerPy g = 'g' ∧ toLowerPy e = 'e'
    then
      let ds := rest.takeWhile Char.isDigit
      if ds.isEmpty then none else some (nat_of_digits ds)
    else none
  | _ => none

/-- Model of the regex search of PAGE_REGEX (app.py line 187) over a file
stem: the leftmost occurrence of page followed by digits wins. -/
def page_search : List Char → Option Nat
  | [] => none
  | c :: rest =>
    match page_at (c :: rest) with
    | some n => some n
    | none => page_search rest

/-- One row of the descriptor table get_vocab_file_info builds. -/
structure FileRow where
  classe : Nat
  course : String
  page : Nat
  folder : String
  stem : String
  label : String
deriving DecidableEq

/-- The course display names of app.py line 214. -/
def course_label (course : String) : String :=
  if course = "e" then "E-Kurs"
  else if course = "g" then "G-Kurs"
  else if course = "französisch" then "Französisch"
  else ""

/-- The per-file classification of the new naming schema (app.py lines
193-220): the lowercased parent directory must match the class pattern and
the stem must contain a page number; the raw course group is canonicalized,
and a French file outside classes six to nine is skipped. -/
def canonical_course (course_raw : String) : String :=
  if course_raw = "französisch" ∨ course_raw = "franzoesisch" then "französisch"
  else if course_raw = "e" ∨ course_raw = "g" then course_raw
  else ""

/-- The descriptor row built for a file of the new schema once both regexes
matched (app.py lines 199-218), including the French class filter of line
211. -/
def classify_new_core (folder stem : String) (num : Nat) (course_raw : String)
    (page : Nat) : Option FileRow :=
  if canonical_course course_raw = "französisch"
     ∧ ¬(num = 6 ∨ num = 7 ∨ num = 8 ∨ num = 9) then none
  else some
    { classe := num, course := canonical_course course_raw, page := page,
      folder := folder, stem := stem,
      label := strip_string ("Klasse " ++ toString num ++ " "
        ++ course_label (canonical_course course_raw)) }

/-- The classification itself: both regexes must match, then the row is
built. -/
def classify_new (folder : String) (stem : String) : Option FileRow :=
  (klasse_match (lower_string folder).data).bind (fun nc =>
    (page_search stem.data).bind (fun page =>
      classify_new_core folder stem nc.1 nc.2 page))

/-- The per-file classification of the old naming schema (app.py lines
225-236). -/
def classify_old (folder : String) (stem : String) : Option FileRow :=
  match klasse_match_old (lower_string folder).data, page_search stem.data with
  | some num, some page =>
    some { classe := num, course := "", page := page, folder := folder,
           stem := stem, label := "Klasse " ++ toString num }
  | _, _ => none

/-- The sort key order of app.py lines 246-251: class number, then course
rank, then page. -/
def course_rank (course : String) : Nat :=
  if course = "e" then 0 else if course = "g" then 1
  else if course = "französisch" then 2 else 3

/-- Row comparison along the sort key. -/
def row_le (a b : FileRow) : Bool :=
  (a.classe, course_rank a.course, a.page) ≤ (b.classe, course_rank b.course, b.page)

/-- Insertion into a sorted row list. -/
def insert_sorted (x : FileRow) : List FileRow → List FileRow
  | [] => [x]
  | y :: ys => if row_le x y then x :: y :: ys else y :: insert_sorted x ys

/-- Sorting of the descriptor table along the sort key of app.py line 251. -/
def sort_rows : List FileRow → List FileRow
  | [] => []
  | x :: xs => insert_sorted x (sort_rows xs)

/-- The function get_vocab_file_info of app.py, with the file-system walk
passed in as lists of lowercase-insensitive directory name and stem pairs for
the two schema roots: per-file classification, the French class filter of
lines 243-244 and the final sort. -/
def get_vocab_file_info (newFiles oldFiles : List (String × String)) :
    List FileRow :=
  let rows := newFiles.filterMap (fun p => classify_new p.1 p.2)
    ++ oldFiles.filterMap (fun p => classify_old p.1 p.2)
  let rows2 := rows.filter (fun r =>
    !(r.course == "französisch") || (r.classe == 6 || r.classe == 7 || r.classe == 8 || r.classe == 9))
  sort_rows rows2

/- ==================== Theorems ==================== -/

theorem load_post_eq_map (rows : List PreRow) :
    load_post rows = rows.map row_transform := by
  show ((rows.map strip_de_en).filter (fun r => !(cell_isna r.de && cell_isna r.en))).map
      (fun r => { classe := to_numeric_cell r.classe, page := to_numeric_cell r.page,
                  de := py_str_cell r.de, en := py_str_cell r.en }) = rows.map row_transform
  rw [List.filter_eq_self.mpr]
  · rw [List.map_map]
    rfl
  · intro r hr
    simp only [List.mem_map] at hr
    obtain ⟨r0, _, rfl⟩ := hr
    rfl

/-- C2: the claim that the loader drops rows with an empty trimmed de or en
field and drops exact duplicate rows is false: a row whose de field is a
single space survives with an empty de, and two identical rows both survive. -/
theorem c2_counterexample :
    (load_post [{ classe := .str "9", page := .str "5", de := .str " ", en := .str "x" }]).any
        (fun v => v.de = "") = true
  ∧ load_post [{ classe := .str "9", page := .str "5", de := .str "Haus", en := .str "house" },
               { classe := .str "9", page := .str "5", de := .str "Haus", en := .str "house" }]
      = [{ classe := some 9, page := some 5, de := "Haus", en := "house" },
         { classe := some 9, page := some 5, de := "Haus", en := "house" }] := by
  constructor
  · decide
  · decide

/-- C2 amended: the loader trims the de and en fields but keeps every row,
including rows whose trimmed fields are empty and exact duplicates: the row
pipeline is a one-to-one map, because after the string conversion no cell is
missing and the both-missing drop removes nothing, and no duplicate removal
exists. -/
theorem c2_amended (rows : List PreRow) :
    load_post rows = rows.map row_transform
  ∧ (load_post rows).length = rows.length := by
  refine ⟨load_post_eq_map rows, ?_⟩
  rw [load_post_eq_map rows, List.length_map]

theorem read_csv_fallback_eq_none_iff
    (read : CsvSep → CsvEncoding → Option (List PreRow)) :
    read_csv_fallback read = none ↔ ∀ a ∈ attempt_sequence, read a.1 a.2 = none := by
  unfold read_csv_fallback attempt_sequence
  cases h1 : read .auto .utf8 with
  | some t => simp [h1]
  | none =>
    cases h2 : read .semicolon .utf8 with
    | some t => simp [h1, h2]
    | none =>
      cases h3 : read .comma .utf8 with
      | some t => simp [h1, h2, h3]
      | none => simp [h1, h2, h3]

/-- C8: loading tries automatic delimiter detection with UTF-8, then the
explicit semicolon and comma delimiters with UTF-8, then ISO-8859-1, and a
file for which every attempt fails contributes zero rows together with a
surfaced warning instead of an exception, so the caller continues. -/
theorem c8_fallback_behavior :
    (∀ read : CsvSep → CsvEncoding → Option (List PreRow),
      ((load_and_preprocess_df read).warned = true ↔
        ∀ a ∈ attempt_sequence, read a.1 a.2 = none))
  ∧ (∀ read : CsvSep → CsvEncoding → Option (List PreRow),
      (∀ a ∈ attempt_sequence, read a.1 a.2 = none) →
      load_and_preprocess_df read = { rows := [], warned := true }) := by
  constructor
  · intro read
    unfold load_and_preprocess_df
    rw [← read_csv_fallback_eq_none_iff read]
    cases h : read_csv_fallback read <;> simp [h]
  · intro read h
    unfold load_and_preprocess_df
    rw [(read_csv_fallback_eq_none_iff read).mpr h]

/-- C8 witness: a file unreadable under all four attempts yields the empty
table and the warning. -/
theorem c8_fallback_witness :
    load_and_preprocess_df (fun _ _ => none) = { rows := [], warned := true } :=
  c8_fallback_behavior.2 (fun _ _ => none) (fun _ _ => rfl)

theorem sample_subset_hit (shuffle : List Nat → List Nat) (items : List VItem)
    (mode : String) (k : Int) (s : SubsetState)
    (h : needs_new (hash_dict_list items ["de", "en"]) mode k (some s) = false) :
    sample_subset shuffle items mode k (some s) = (s.subset, s) := by
  unfold sample_subset
  simp [h]

theorem sample_subset_miss (shuffle : List Nat → List Nat) (items : List VItem)
    (mode : String) (k : Int) (st : Option SubsetState)
    (h : needs_new (hash_dict_list items ["de", "en"]) mode k st = true) :
    sample_subset shuffle items mode k st
      = (fresh_subset shuffle items mode k,
         { base_hash := hash_dict_list items ["de", "en"], mode := mode, k := k,
           subset := fresh_subset shuffle items mode k }) := by
  unfold sample_subset
  simp [h]

theorem needs_new_self (h : String) (mode : String) (k : Int) (subset : List VItem) :
    needs_new h mode k (some { base_hash := h, mode := mode, k := k, subset := subset })
      = false := by
  simp [needs_new]

/-- C3: the sampler recomputes its subset exactly when no cached state exists
(as after a forced invalidation), or the content fingerprint, the mode or, in
k-mode, the requested size changed; otherwise a repeated call with the same
items, mode and size returns the identical ordered subset and state, whatever
generator the seed would induce. -/
theorem c3_subset_stability :
    (∀ shuffle shuffle2 items mode k st,
      sample_subset shuffle2 items mode k (some (sample_subset shuffle items mode k st).2)
        = sample_subset shuffle items mode k st)
  ∧ (∀ shuffle items mode k,
      sample_subset shuffle items mode k none
        = (fresh_subset shuffle items mode k,
           { base_hash := hash_dict_list items ["de", "en"], mode := mode, k := k,
             subset := fresh_subset shuffle items mode k }))
  ∧ (∀ shuffle items mode k s,
      needs_new (hash_dict_list items ["de", "en"]) mode k (some s) = false →
      sample_subset shuffle items mode k (some s) = (s.subset, s))
  ∧ (∀ shuffle items mode k s,
      needs_new (hash_dict_list items ["de", "en"]) mode k (some s) = true →
      sample_subset shuffle items mode k (some s)
        = (fresh_subset shuffle items mode k,
           { base_hash := hash_dict_list items ["de", "en"], mode := mode, k := k,
             subset := fresh_subset shuffle items mode k })) := by
  refine ⟨?_, ?_, ?_, ?_⟩
  · intro shuffle shuffle2 items mode k st
    by_cases hn : needs_new (hash_dict_list items ["de", "en"]) mode k st = true
    · rw [sample_subset_miss shuffle items mode k st hn]
      rw [sample_subset_hit shuffle2 items mode k _
        (needs_new_self (hash_dict_list items ["de", "en"]) mode k
          (fresh_subset shuffle items mode k))]
    · cases st with
      | none => exact absurd rfl hn
      | some s =>
        rw [Bool.not_eq_true] at hn
        rw [sample_subset_hit shuffle items mode k s hn]
        rw [sample_subset_hit shuffle2 items mode k s hn]
  · intro shuffle items mode k
    exact sample_subset_miss shuffle items mode k none rfl
  · intro shuffle items mode k s h
    exact sample_subset_hit shuffle items mode k s h
  · intro shuffle items mode k s h
    exact sample_subset_miss shuffle items mode k (some s) h

/-- C3 witness: a concrete second call with the same inputs returns the
identical subset and cache record. -/
theorem c3_subset_witness :
    sample_subset id [⟨"a", "b"⟩, ⟨"c", "d"⟩, ⟨"e", "f"⟩] "k" 2
        (some (sample_subset id [⟨"a", "b"⟩, ⟨"c", "d"⟩, ⟨"e", "f"⟩] "k" 2 none).2)
      = sample_subset id [⟨"a", "b"⟩, ⟨"c", "d"⟩, ⟨"e", "f"⟩] "k" 2 none :=
  c3_subset_stability.1 id id [⟨"a", "b"⟩, ⟨"c", "d"⟩, ⟨"e", "f"⟩] "k" 2 none

/-- C5: the claim that a wrong full-word guess costs exactly one fail and
that a matching full-word guess marks all alphabetic letters as guessed is
false at a concrete round: the wrong guess leaves the fail counter at zero,
and the matching guess solves the round without adding any guessed letter. -/
theorem c5_counterexample :
    (guess_full_word "go" "xyz" 0 hangman_init).fails = 0
  ∧ ¬ ('g' ∈ (guess_full_word "go" "go" 0 hangman_init).guessed)
  ∧ (guess_full_word "go" "go" 0 hangman_init).solved = true := by
  refine ⟨by decide, by decide, by decide⟩

/-- C5 amended: a full-word guess never changes the fail counter or the
guessed set; a non-matching guess on an unsolved round leaves the state
entirely unchanged apart from a shown warning, and a matching guess marks the
round solved and freezes the timer without marking any letters guessed. -/
theorem c5_amended :
    (∀ solution guess now st,
      (guess_full_word solution guess now st).fails = st.fails
      ∧ (guess_full_word solution guess now st).guessed = st.guessed)
  ∧ (∀ solution guess now st, st.solved = false →
      normalize_text guess ≠ normalize_text solution →
      guess_full_word solution guess now st = st)
  ∧ (∀ solution guess now st, st.solved = false →
      normalize_text guess = normalize_text solution →
      guess_full_word solution guess now st
        = { st with solved := true, timer := stop_freeze now st.timer }) := by
  refine ⟨?_, ?_, ?_⟩
  · intro solution guess now st
    unfold guess_full_word
    split
    · exact ⟨rfl, rfl⟩
    · split
      · exact ⟨rfl, rfl⟩
      · exact ⟨rfl, rfl⟩
  · intro solution guess now st hs hne
    unfold guess_full_word
    rw [hs]
    simp [hne]
  · intro solution guess now st hs he
    unfold guess_full_word
    rw [hs]
    simp [he]

/-- C5 witness: the amended theorem evaluated on a concrete wrong guess. -/
theorem c5_witness :
    guess_full_word "go" "xyz" 0 hangman_init = hangman_init :=
  c5_amended.2.1 "go" "xyz" 0 hangman_init rfl (by decide)

/-- C6: the skip action of the input quiz appends exactly one Skipped history
record with an empty user answer and advances the position by one, leaving
every other field (items, order, score, total, timer) unchanged; and after
one correct submission, one wrong submission and one skip the total is two,
the score one and the history holds three records. -/
theorem c6_skip_contract :
    (∀ st item, current_item st = some item →
      quiz_skip st = { st with
        history := st.history ++ [{ de := item.de, user := "", en := item.en,
                                    result := "Skipped" }],
        index := st.index + 1 })
  ∧ ((quiz_skip (quiz_submit "blau" (quiz_submit "house"
        { items := [{ de := "das Haus", en := "house" }, { de := "gehen", en := "go" },
                    { de := "rot", en := "red" }],
          order := [0, 1, 2], index := 0, score := 0, total := 0, history := [],
          timer := { running := false, started_ms := 0, elapsed_ms := 0 } }))).total = 2
     ∧ (quiz_skip (quiz_submit "blau" (quiz_submit "house"
        { items := [{ de := "das Haus", en := "house" }, { de := "gehen", en := "go" },
                    { de := "rot", en := "red" }],
          order := [0, 1, 2], index := 0, score := 0, total := 0, history := [],
          timer := { running := false, started_ms := 0, elapsed_ms := 0 } }))).history.length = 3
     ∧ (quiz_skip (quiz_submit "blau" (quiz_submit "house"
        { items := [{ de := "das Haus", en := "house" }, { de := "gehen", en := "go" },
                    { de := "rot", en := "red" }],
          order := [0, 1, 2], index := 0, score := 0, total := 0, history := [],
          timer := { running := false, started_ms := 0, elapsed_ms := 0 } }))).score = 1) := by
  constructor
  · intro st item h
    unfold quiz_skip
    rw [h]
  · refine ⟨by decide, by decide, by decide⟩

/-- C6 witness: the skip contract evaluated on a concrete round state. -/
theorem c6_skip_witness :
    quiz_skip
        { items := [{ de := "rot", en := "red" }], order := [0], index := 0, score := 0,
          total := 0, history := [],
          timer := { running := false, started_ms := 0, elapsed_ms := 0 } }
      = { items := [{ de := "rot", en := "red" }], order := [0], index := 1, score := 0,
          total := 0,
          history := [{ de := "rot", user := "", en := "red", result := "Skipped" }],
          timer := { running := false, started_ms := 0, elapsed_ms := 0 } } :=
  c6_skip_contract.1
    { items := [{ de := "rot", en := "red" }], order := [0], index := 0, score := 0,
      total := 0, history := [],
      timer := { running := false, started_ms := 0, elapsed_ms := 0 } }
    { de := "rot", en := "red" } rfl

/-- C1: the claim that grading splits the accepted answer on a slash in every
grading path is false: the input quiz grades the answer were against the
accepted string was/were as Wrong, with no score, and the hangman full-word
check likewise leaves the round unsolved. -/
theorem c1_counterexample :
    ((quiz_submit "were"
        { items := [{ de := "sein (Vergangenheit)", en := "was/were" }], order := [0],
          index := 0, score := 0, total := 0, history := [],
          timer := { running := false, started_ms := 0, elapsed_ms := 0 } }).history.map
        (fun h => h.result) = ["Wrong"])
  ∧ (quiz_submit "were"
        { items := [{ de := "sein (Vergangenheit)", en := "was/were" }], order := [0],
          index := 0, score := 0, total := 0, history := [],
          timer := { running := false, started_ms := 0, elapsed_ms := 0 } }).score = 0
  ∧ (guess_full_word "was/were" "were" 0 hangman_init).solved = false := by
  refine ⟨by decide, by decide, by decide⟩

/-- C1 amended: the input quiz and the hangman full-word check grade by
comparing the whole normalized user answer with the whole normalized accepted
string, with no slash splitting, so were against was/were is Wrong in both
paths (and wasx likewise); slash-variant acceptance exists only in the
irregular-verb game. -/
theorem c1_amended :
    (∀ st item user, current_item st = some item →
      (((quiz_submit user st).score = st.score + 1 ↔
          normalize_text user = normalize_text item.en)
       ∧ (quiz_submit user st).history.getLast?
           = some { de := item.de, user := user, en := item.en,
                    result := if normalize_text user = normalize_text item.en
                              then "Correct" else "Wrong" }))
  ∧ (∀ solution guess now st, st.solved = false →
      ((guess_full_word solution guess now st).solved = true ↔
        normalize_text guess = normalize_text solution))
  ∧ is_accepted_form "pastSimple" verb_be "were" = true := by
  refine ⟨?_, ?_, by decide⟩
  · intro st item user h
    unfold quiz_submit
    rw [h]
    constructor
    · by_cases hok : normalize_text user = normalize_text item.en
      · simp [hok]
      · simp only [hok, if_false]
        constructor
        · intro habs
          exfalso
          omega
        · intro habs
          exact habs.elim
    · by_cases hok : normalize_text user = normalize_text item.en
      · simp [hok, List.getLast?_concat]
      · simp [hok, List.getLast?_concat]
  · intro solution guess now st hs
    unfold guess_full_word
    rw [hs]
    by_cases he : normalize_text guess = normalize_text solution
    · simp [he]
    · simp [he, hs]

/-- C1 witness: the amended grading rule evaluated on a concrete matching
full-word guess. -/
theorem c1_witness :
    (guess_full_word "go" "go" 0 hangman_init).solved = true ↔
      normalize_text "go" = normalize_text "go" :=
  c1_amended.2.1 "go" "go" 0 hangman_init rfl

/-- C4: the specification says the hangman win condition folds diacritics, so
a word containing the letter with acute accent is solved once its base letter
was guessed; on the target cafe with accent, after the four letters c, a, f
and e were guessed (each accepted as present, no fail), the diacritic-folded
win condition of the specification holds, yet the code leaves the round
unsolved, because its win test compares the raw lowercased character against
the guessed set. -/
theorem c4_code_divergence :
    (spec_win_check "café"
        (guess_letter "café" 'e' 0 (guess_letter "café" 'f' 0 (guess_letter "café" 'a' 0
          (guess_letter "café" 'c' 0 hangman_init)))).guessed = true)
  ∧ (guess_letter "café" 'e' 0 (guess_letter "café" 'f' 0 (guess_letter "café" 'a' 0
        (guess_letter "café" 'c' 0 hangman_init)))).solved = false
  ∧ (guess_letter "café" 'e' 0 (guess_letter "café" 'f' 0 (guess_letter "café" 'a' 0
        (guess_letter "café" 'c' 0 hangman_init)))).fails = 0
  ∧ hangman_win_check "café" ['e', 'f', 'a', 'c'] = false := by
  refine ⟨by decide, by decide, by decide, by decide⟩

theorem trimEnd_trimEnd (l : List Char) : trimEnd (trimEnd l) = trimEnd l := by
  induction l with
  | nil => rfl
  | cons c cs ih =>
    cases h : trimEnd cs with
    | nil =>
      by_cases hc : isSpacePy c = true
      · simp [trimEnd, h, hc]
      · rw [Bool.not_eq_true] at hc
        simp [trimEnd, h, hc]
    | cons x xs =>
      rw [h] at ih
      have e1 : trimEnd (c :: cs) = c :: x :: xs := by
        have e0 : trimEnd (c :: cs) = match trimEnd cs with
            | [] => if isSpacePy c then [] else [c]
            | y :: ys => c :: y :: ys := rfl
        rw [e0, h]
      rw [e1]
      have e2 : trimEnd (c :: x :: xs) = match trimEnd (x :: xs) with
          | [] => if isSpacePy c then [] else [c]
          | y :: ys => c :: y :: ys := rfl
      rw [e2, ih]

theorem dropWhile_head_not {p : Char → Bool} (l : List Char) :
    l.dropWhile p = [] ∨ ∃ x xs, l.dropWhile p = x :: xs ∧ p x = false := by
  induction l with
  | nil => exact Or.inl rfl
  | cons c cs ih =>
    by_cases hc : p c = true
    · rw [List.dropWhile_cons, if_pos hc]
      exact ih
    · rw [Bool.not_eq_true] at hc
      exact Or.inr ⟨c, cs, by rw [List.dropWhile_cons, hc]; simp, hc⟩

theorem trimEnd_cons_head (x : Char) (xs : List Char) :
    trimEnd (x :: xs) = [] ∨ ∃ ys, trimEnd (x :: xs) = x :: ys := by
  cases h : trimEnd xs with
  | nil =>
    by_cases hx : isSpacePy x = true
    · exact Or.inl (by simp [trimEnd, h, hx])
    · rw [Bool.not_eq_true] at hx
      exact Or.inr ⟨[], by simp [trimEnd, h, hx]⟩
  | cons y ys => exact Or.inr ⟨y :: ys, by simp [trimEnd, h]⟩

theorem dropWhile_trimEnd_dropWhile (l : List Char) :
    (trimEnd (l.dropWhile isSpacePy)).dropWhile isSpacePy
      = trimEnd (l.dropWhile isSpacePy) := by
  rcases dropWhile_head_not (p := isSpacePy) l with h | ⟨x, xs, h, hx⟩
  · rw [h]
    rfl
  · rw [h]
    rcases trimEnd_cons_head x xs with h2 | ⟨ys, h2⟩
    · rw [h2]
      rfl
    · rw [h2, List.dropWhile_cons, hx]
      simp

theorem stripPy_stripPy (l : List Char) : stripPy (stripPy l) = stripPy l := by
  unfold stripPy
  rw [dropWhile_trimEnd_dropWhile, trimEnd_trimEnd]

theorem normalizeL_stripPy (l : List Char) : normalizeL (stripPy l) = normalizeL l := by
  unfold normalizeL
  rw [show stripPy (stripPy l) = stripPy l from stripPy_stripPy l]

theorem normalize_text_strip (s : String) :
    normalize_text (strip_string s) = normalize_text s :=
  congrArg (fun l => (⟨l⟩ : String)) (normalizeL_stripPy s.data)

theorem split_slash_of_no_slash (l : List Char) (h : l.contains '/' = false) :
    split_slash l = [l] := by
  induction l with
  | nil => rfl
  | cons c cs ih =>
    rw [List.contains_cons, Bool.or_eq_false_iff] at h
    obtain ⟨hc, hcs⟩ := h
    rw [beq_eq_false_iff_ne] at hc
    unfold split_slash
    rw [if_neg (show ¬(c = '/') from fun e => hc e.symm), ih hcs]

theorem is_accepted_form_non_meaning (key : String) (v : Verb) (tile : String)
    (hk : key ≠ "meaning") :
    is_accepted_form key v tile = true ↔
      (normalize_text tile = normalize_text (verb_field v key)
       ∨ ∃ p ∈ string_split_slash (verb_field v key),
           normalize_text tile = normalize_text (strip_string p)) := by
  unfold is_accepted_form allowed_forms
  by_cases hsl : (verb_field v key).data.contains '/' = true
  · rw [if_pos ⟨hk, hsl⟩]
    rw [List.elem_iff]
    simp only [List.map_cons, List.mem_cons, List.map_map, List.mem_map, Function.comp]
    constructor
    · rintro (h | ⟨p, hp, hpe⟩)
      · exact Or.inl h
      · exact Or.inr ⟨p, hp, hpe.symm⟩
    · rintro (h | ⟨p, hp, hpe⟩)
      · exact Or.inl h
      · exact Or.inr ⟨p, hp, hpe.symm⟩
  · rw [Bool.not_eq_true] at hsl
    rw [if_neg (by
      intro hcontra
      rw [hsl] at hcontra
      exact Bool.false_ne_true hcontra.2)]
    have hsplit : string_split_slash (verb_field v key) = [verb_field v key] := by
      unfold string_split_slash
      rw [split_slash_of_no_slash _ hsl]
      rfl
    rw [hsplit]
    simp [normalize_text_strip, eq_comm]

/-- C9: in the irregular-verb game, the accepted forms for the infinitive,
past-simple and past-participle targets contain every stripped
slash-separated alternative of the field as well as the whole field, so the
tile were matches the past-simple target of the verb be; for the meaning
target the normalized literal field is the sole accepted form and is never
split on a slash, even when the meaning contains one. -/
theorem c9_irregular_asymmetry :
    (∀ v tile, is_accepted_form "meaning" v tile = true ↔
      normalize_text tile = normalize_text v.meaning)
  ∧ (∀ v tile key, (key = "infinitive" ∨ key = "pastSimple" ∨ key = "pastParticiple") →
      (is_accepted_form key v tile = true ↔
        (normalize_text tile = normalize_text (verb_field v key)
         ∨ ∃ p ∈ string_split_slash (verb_field v key),
             normalize_text tile = normalize_text (strip_string p))))
  ∧ is_accepted_form "pastSimple" verb_be "were" = true
  ∧ is_accepted_form "meaning" verb_be "sein" = true
  ∧ is_accepted_form "meaning"
      { infinitive := "x", pastSimple := "y", pastParticiple := "z", meaning := "a/b" }
      "a" = false
  ∧ is_accepted_form "pastSimple"
      { infinitive := "x", pastSimple := "a/b", pastParticiple := "z", meaning := "w" }
      "a" = true := by
  refine ⟨?_, ?_, by decide, by decide, by decide, by decide⟩
  · intro v tile
    unfold is_accepted_form allowed_forms
    rw [if_neg (fun hcontra => hcontra.1 rfl)]
    rw [show verb_field v "meaning" = v.meaning from rfl]
    rw [List.elem_iff]
    simp
  · intro v tile key hkey
    exact is_accepted_form_non_meaning key v tile (by
      rcases hkey with rfl | rfl | rfl <;> decide)

/-- C9 witness: the slash-tolerant characterization applied to the verb be at
the past-simple target. -/
theorem c9_witness :
    is_accepted_form "pastSimple" verb_be "were" = true ↔
      (normalize_text "were" = normalize_text (verb_field verb_be "pastSimple")
       ∨ ∃ p ∈ string_split_slash (verb_field verb_be "pastSimple"),
           normalize_text "were" = normalize_text (strip_string p)) :=
  c9_irregular_asymmetry.2.1 verb_be "were" "pastSimple" (Or.inr (Or.inl rfl))

theorem map_id_of_mem {f : Char → Char} (l : List Char) (h : ∀ c ∈ l, f c = c) :
    l.map f = l := by
  induction l with
  | nil => rfl
  | cons c cs ih =>
    rw [List.map_cons, h c (List.mem_cons_self c cs),
      ih (fun x hx => h x (List.mem_cons_of_mem c hx))]

theorem toLowerPy_eq_self_of_isDigit (c : Char) (h : c.isDigit = true) :
    toLowerPy c = c := by
  have hfind : upperLowerPairs.find? (fun p => p.1 == c) = none := by
    rw [List.find?_eq_none]
    intro p hp hbeq
    have h2 : p.1 = c := beq_iff_eq.mp hbeq
    have h1 := List.all_eq_true.mp
      (show upperLowerPairs.all (fun q => !(q.1.isDigit)) = true by decide) p hp
    simp only [h2, h, Bool.not_true] at h1
    exact Bool.false_ne_true h1
  unfold toLowerPy
  rw [hfind]

theorem takeWhile_append_of_all {p : Char → Bool} (l₁ l₂ : List Char)
    (h : ∀ a ∈ l₁, p a = true) :
    (l₁ ++ l₂).takeWhile p = l₁ ++ l₂.takeWhile p := by
  induction l₁ with
  | nil => rfl
  | cons c cs ih =>
    have hc := h c (List.mem_cons_self c cs)
    rw [List.cons_append, List.takeWhile_cons, hc]
    simp only [if_true]
    rw [ih (fun x hx => h x (List.mem_cons_of_mem c hx))]
    rfl

theorem dropWhile_append_of_all {p : Char → Bool} (l₁ l₂ : List Char)
    (h : ∀ a ∈ l₁, p a = true) :
    (l₁ ++ l₂).dropWhile p = l₂.dropWhile p := by
  induction l₁ with
  | nil => rfl
  | cons c cs ih =>
    have hc := h c (List.mem_cons_self c cs)
    rw [List.cons_append, List.dropWhile_cons, hc]
    simp only [if_true]
    exact ih (fun x hx => h x (List.mem_cons_of_mem c hx))

theorem dropWhile_eq_self_of_takeWhile_nil {p : Char → Bool} (l : List Char)
    (h : l.takeWhile p = []) : l.dropWhile p = l := by
  cases l with
  | nil => rfl
  | cons c cs =>
    rw [List.takeWhile_cons] at h
    by_cases hc : p c = true
    · rw [hc] at h
      simp at h
    · rw [Bool.not_eq_true] at hc
      rw [List.dropWhile_cons, hc]
      simp

theorem takeWhile_eq_self_of_all {p : Char → Bool} (l : List Char)
    (h : ∀ a ∈ l, p a = true) : l.takeWhile p = l := by
  induction l with
  | nil => rfl
  | cons c cs ih =>
    rw [List.takeWhile_cons, h c (List.mem_cons_self c cs)]
    simp only [if_true]
    rw [ih (fun x hx => h x (List.mem_cons_of_mem c hx))]

theorem dropWhile_eq_nil_of_all {p : Char → Bool} (l : List Char)
    (h : ∀ a ∈ l, p a = true) : l.dropWhile p = [] := by
  induction l with
  | nil => rfl
  | cons c cs ih =>
    rw [List.dropWhile_cons, h c (List.mem_cons_self c cs)]
    simp only [if_true]
    exact ih (fun x hx => h x (List.mem_cons_of_mem c hx))

theorem klasse_match_underscore (d course : List Char) (hd : d ≠ [])
    (hdd : ∀ c ∈ d, c.isDigit = true) :
    klasse_match ("klasse".data ++ (d ++ '_' :: course))
      = (if course.isEmpty then some (nat_of_digits d, "")
         else if course = "e".data then some (nat_of_digits d, "e")
         else if course = "g".data then some (nat_of_digits d, "g")
         else if course = "französisch".data then some (nat_of_digits d, "französisch")
         else if course = "franzoesisch".data then some (nat_of_digits d, "franzoesisch")
         else none) := by
  simp only [klasse_match]
  rw [show (6 : Nat) = ("klasse".data).length from rfl, List.take_left, List.drop_left]
  rw [if_pos rfl]
  rw [takeWhile_append_of_all d ('_' :: course) hdd]
  rw [dropWhile_append_of_all d ('_' :: course) hdd]
  rw [show ('_' :: course).takeWhile Char.isDigit = [] from by
    rw [List.takeWhile_cons]
    simp]
  rw [show ('_' :: course).dropWhile Char.isDigit = '_' :: course from by
    rw [List.dropWhile_cons]
    simp]
  rw [List.append_nil]
  rw [if_neg (by simp [hd])]
  rfl

theorem klasse_match_no_course (d : List Char) (hd : d ≠ [])
    (hdd : ∀ c ∈ d, c.isDigit = true) :
    klasse_match ("klasse".data ++ d) = some (nat_of_digits d, "") := by
  simp only [klasse_match]
  rw [show (6 : Nat) = ("klasse".data).length from rfl, List.take_left, List.drop_left]
  rw [if_pos rfl]
  rw [takeWhile_eq_self_of_all d hdd, dropWhile_eq_nil_of_all d hdd]
  rw [if_neg (by simp [hd])]
  simp [hd]

theorem map_toLowerPy_klasse_folder (d suffix : List Char)
    (hdd : ∀ c ∈ d, c.isDigit = true) (hs : suffix.map toLowerPy = suffix) :
    ("klasse".data ++ (d ++ suffix)).map toLowerPy = "klasse".data ++ (d ++ suffix) := by
  rw [List.map_append, List.map_append]
  rw [show ("klasse".data).map toLowerPy = "klasse".data from by decide]
  rw [map_id_of_mem d (fun c hc => toLowerPy_eq_self_of_isDigit c (hdd c hc)), hs]

theorem classify_new_underscore (d cl : List Char) (tag : String) (stem : String)
    (m : Nat) (hd : d ≠ []) (hdd : ∀ c ∈ d, c.isDigit = true)
    (hp : page_search stem.data = some m)
    (hcl : cl.map toLowerPy = cl)
    (hkm : (if cl.isEmpty then some (nat_of_digits d, "")
            else if cl = "e".data then some (nat_of_digits d, "e")
            else if cl = "g".data then some (nat_of_digits d, "g")
            else if cl = "französisch".data then some (nat_of_digits d, "französisch")
            else if cl = "franzoesisch".data then some (nat_of_digits d, "franzoesisch")
            else none) = some (nat_of_digits d, tag)) :
    classify_new ⟨"klasse".data ++ (d ++ '_' :: cl)⟩ stem
      = classify_new_core ⟨"klasse".data ++ (d ++ '_' :: cl)⟩ stem
          (nat_of_digits d) tag m := by
  unfold classify_new
  rw [show (lower_string ⟨"klasse".data ++ (d ++ '_' :: cl)⟩).data
      = ("klasse".data ++ (d ++ '_' :: cl)).map toLowerPy from rfl]
  rw [map_toLowerPy_klasse_folder d ('_' :: cl) hdd
    (by rw [List.map_cons, show toLowerPy '_' = '_' from by decide, hcl])]
  rw [klasse_match_underscore d cl hd hdd, hkm]
  rw [Option.some_bind, hp, Option.some_bind]

theorem classify_new_nocourse (d : List Char) (stem : String) (m : Nat)
    (hd : d ≠ []) (hdd : ∀ c ∈ d, c.isDigit = true)
    (hp : page_search stem.data = some m) :
    classify_new ⟨"klasse".data ++ d⟩ stem
      = classify_new_core ⟨"klasse".data ++ d⟩ stem (nat_of_digits d) "" m := by
  unfold classify_new
  rw [show (lower_string ⟨"klasse".data ++ d⟩).data
      = ("klasse".data ++ d).map toLowerPy from rfl]
  rw [List.map_append, show ("klasse".data).map toLowerPy = "klasse".data from by decide,
    map_id_of_mem d (fun c hc => toLowerPy_eq_self_of_isDigit c (hdd c hc))]
  rw [klasse_match_no_course d hd hdd]
  rw [Option.some_bind, hp, Option.some_bind]

theorem classify_new_core_eq_none_iff (folder stem : String) (num page : Nat)
    (course_raw : String) :
    classify_new_core folder stem num course_raw page = none ↔
      (canonical_course course_raw = "französisch"
       ∧ ¬(num = 6 ∨ num = 7 ∨ num = 8 ∨ num = 9)) := by
  unfold classify_new_core
  split
  · exact iff_of_true rfl (by assumption)
  · exact iff_of_false (by simp) (by assumption)

theorem get_vocab_file_info_singleton (folder stem : String) :
    get_vocab_file_info [(folder, stem)] []
      = match classify_new folder stem with
        | none => []
        | some r =>
          if !(r.course == "französisch")
             || (r.classe == 6 || r.classe == 7 || r.classe == 8 || r.classe == 9)
          then [r] else [] := by
  cases h : classify_new folder stem with
  | none => simp [get_vocab_file_info, h, sort_rows]
  | some r =>
    simp only [get_vocab_file_info, List.filterMap_cons, h, List.filterMap_nil,
      List.append_nil, List.filter_cons, List.filter_nil]
    split
    · rfl
    · rfl

theorem get_info_fr_iff (folder stem : String) (num page : Nat)
    (hclassify : classify_new folder stem
      = classify_new_core folder stem num "französisch" page) :
    (get_vocab_file_info [(folder, stem)] [] ≠ []
      ↔ (num = 6 ∨ num = 7 ∨ num = 8 ∨ num = 9)) := by
  rw [get_vocab_file_info_singleton, hclassify]
  by_cases hnum : num = 6 ∨ num = 7 ∨ num = 8 ∨ num = 9
  · unfold classify_new_core
    rw [if_neg (fun hc => hc.2 hnum)]
    rcases hnum with h | h | h | h <;> subst h <;> simp
  · unfold classify_new_core
    rw [if_pos ⟨by decide, hnum⟩]
    simp [hnum]

theorem get_info_some_course (folder stem : String) (num page : Nat)
    (course_raw : String) (hc : canonical_course course_raw ≠ "französisch")
    (hclassify : classify_new folder stem
      = classify_new_core folder stem num course_raw page) :
    get_vocab_file_info [(folder, stem)] [] ≠ [] := by
  rw [get_vocab_file_info_singleton, hclassify]
  unfold classify_new_core
  rw [if_neg (fun hcond => hc hcond.1)]
  simp [beq_eq_false_iff_ne.mpr hc]

/-- C10: file discovery restricts the French course to classes six to nine.
For a directory named klasse followed by a digit string and the French course
(either spelling) and a stem carrying a page number, the file appears in the
discovered descriptor table if and only if its class number is six, seven,
eight or nine, whereas the e course, the g course and the no-course directory
names are discovered for every class number. -/
theorem c10_french_class_filter (d : List Char) (stem : String) (m : Nat)
    (hd : d ≠ []) (hdd : ∀ c ∈ d, c.isDigit = true)
    (hp : page_search stem.data = some m) :
    ((get_vocab_file_info [(⟨"klasse".data ++ (d ++ '_' :: "französisch".data)⟩, stem)] [] ≠ [])
      ↔ (nat_of_digits d = 6 ∨ nat_of_digits d = 7 ∨ nat_of_digits d = 8 ∨ nat_of_digits d = 9))
  ∧ ((get_vocab_file_info [(⟨"klasse".data ++ (d ++ '_' :: "franzoesisch".data)⟩, stem)] [] ≠ [])
      ↔ (nat_of_digits d = 6 ∨ nat_of_digits d = 7 ∨ nat_of_digits d = 8 ∨ nat_of_digits d = 9))
  ∧ get_vocab_file_info [(⟨"klasse".data ++ (d ++ '_' :: "e".data)⟩, stem)] [] ≠ []
  ∧ get_vocab_file_info [(⟨"klasse".data ++ (d ++ '_' :: "g".data)⟩, stem)] [] ≠ []
  ∧ get_vocab_file_info [(⟨"klasse".data ++ d⟩, stem)] [] ≠ [] := by
  refine ⟨?_, ?_, ?_, ?_, ?_⟩
  · exact get_info_fr_iff _ stem (nat_of_digits d) m
      (by
        have h := classify_new_underscore d "französisch".data "französisch" stem m hd hdd hp
          (by decide)
          (by rw [if_neg (by decide), if_neg (by decide), if_neg (by decide), if_pos rfl])
        exact h)
  · refine get_info_fr_iff _ stem (nat_of_digits d) m ?_
    have h := classify_new_underscore d "franzoesisch".data "franzoesisch" stem m hd hdd hp
      (by decide)
      (by rw [if_neg (by decide), if_neg (by decide), if_neg (by decide), if_neg (by decide),
        if_pos rfl])
    rw [h]
    unfold classify_new_core
    rfl
  · exact get_info_some_course _ stem (nat_of_digits d) m "e" (by decide)
      (classify_new_underscore d "e".data "e" stem m hd hdd hp (by decide)
        (by rw [if_neg (by decide), if_pos rfl]))
  · exact get_info_some_course _ stem (nat_of_digits d) m "g" (by decide)
      (classify_new_underscore d "g".data "g" stem m hd hdd hp (by decide)
        (by rw [if_neg (by decide), if_neg (by decide), if_pos rfl]))
  · exact get_info_some_course _ stem (nat_of_digits d) m "" (by decide)
      (classify_new_nocourse d stem m hd hdd hp)

/-- C10 witness: the discovery table for a concrete French class seven file
is nonempty exactly because seven is in range. -/
theorem c10_witness :
    (get_vocab_file_info
        [(⟨"klasse".data ++ (['7'] ++ '_' :: "französisch".data)⟩,
          "klasse7_französisch_page3")] [] ≠ [])
      ↔ (nat_of_digits ['7'] = 6 ∨ nat_of_digits ['7'] = 7 ∨ nat_of_digits ['7'] = 8
         ∨ nat_of_digits ['7'] = 9) :=
  (c10_french_class_filter ['7'] "klasse7_französisch_page3" 3 (by decide) (by decide)
    (by decide)).1

theorem toLowerPy_toLowerPy (c : Char) : toLowerPy (toLowerPy c) = toLowerPy c := by
  cases hf : upperLowerPairs.find? (fun p => p.1 == c) with
  | none =>
    have h1 : toLowerPy c = c := by
      unfold toLowerPy
      rw [hf]
    rw [h1]
    exact h1
  | some p =>
    have hp : p ∈ upperLowerPairs := List.mem_of_find?_eq_some hf
    have h1 : toLowerPy c = p.2 := by
      unfold toLowerPy
      rw [hf]
    rw [h1]
    have hnone : upperLowerPairs.find? (fun q => q.1 == p.2) = none := by
      rw [List.find?_eq_none]
      intro q hq hbeq
      have hfact := List.all_eq_true.mp (show upperLowerPairs.all (fun a =>
        upperLowerPairs.all (fun b => !(b.1 == a.2))) = true by decide) p hp
      have h2 := List.all_eq_true.mp hfact q hq
      simp only [hbeq, Bool.not_true] at h2
      exact Bool.false_ne_true h2
    unfold toLowerPy
    rw [hnone]

theorem stable_of_nfkd_lower (d c : Char) (hmem : c ∈ nfkdChar (toLowerPy d))
    (hall : allowedChar c = true) : toLowerPy c = c ∧ nfkdChar c = [c] := by
  cases hf : nfkdPairs.find? (fun p => p.1 == toLowerPy d) with
  | none =>
    have h1 : nfkdChar (toLowerPy d) = [toLowerPy d] := by
      unfold nfkdChar
      rw [hf]
    rw [h1] at hmem
    have hc : c = toLowerPy d := List.mem_singleton.mp hmem
    subst hc
    refine ⟨toLowerPy_toLowerPy d, ?_⟩
    unfold nfkdChar
    rw [hf]
  | some p =>
    have hp : p ∈ nfkdPairs := List.mem_of_find?_eq_some hf
    have h1 : nfkdChar (toLowerPy d) = p.2 := by
      unfold nfkdChar
      rw [hf]
    rw [h1] at hmem
    have hfact := List.all_eq_true.mp (show nfkdPairs.all (fun q => q.2.all (fun b =>
      !(allowedChar b) || ((toLowerPy b == b) && (nfkdChar b == [b])))) = true by decide) p hp
    have h2 := List.all_eq_true.mp hfact c hmem
    rw [hall] at h2
    simp only [Bool.not_true, Bool.false_or, Bool.and_eq_true, beq_iff_eq] at h2
    exact h2

theorem collapseWs_cons_not_space (b : Char) (rest : List Char)
    (hb : isSpacePy b = false) : ∃ m, collapseWs (b :: rest) = b :: m := by
  cases rest with
  | nil => exact ⟨[], by simp [collapseWs, hb]⟩
  | cons r rs => exact ⟨collapseWs (r :: rs), by simp [collapseWs, hb]⟩

theorem mem_collapseWs : ∀ (l : List Char), ∀ c ∈ collapseWs l,
    c = ' ' ∨ (c ∈ l ∧ isSpacePy c = false)
  | [] => by
    intro c h
    simp [collapseWs] at h
  | [a] => by
    intro c h
    by_cases ha : isSpacePy a = true
    · rw [show collapseWs [a] = [' '] from by simp [collapseWs, ha]] at h
      exact Or.inl (List.mem_singleton.mp h)
    · rw [Bool.not_eq_true] at ha
      rw [show collapseWs [a] = [a] from by simp [collapseWs, ha]] at h
      have := List.mem_singleton.mp h
      subst this
      exact Or.inr ⟨List.mem_singleton.mpr rfl, ha⟩
  | a :: b :: rest => by
    intro c h
    by_cases ha : isSpacePy a = true
    · by_cases hb : isSpacePy b = true
      · rw [show collapseWs (a :: b :: rest) = collapseWs (b :: rest) from by
          simp [collapseWs, ha, hb]] at h
        rcases mem_collapseWs (b :: rest) c h with h1 | ⟨h2, h3⟩
        · exact Or.inl h1
        · exact Or.inr ⟨List.mem_cons_of_mem a h2, h3⟩
      · rw [Bool.not_eq_true] at hb
        rw [show collapseWs (a :: b :: rest) = ' ' :: collapseWs (b :: rest) from by
          simp [collapseWs, ha, hb]] at h
        rcases List.mem_cons.mp h with h1 | h1
        · exact Or.inl h1
        · rcases mem_collapseWs (b :: rest) c h1 with h2 | ⟨h3, h4⟩
          · exact Or.inl h2
          · exact Or.inr ⟨List.mem_cons_of_mem a h3, h4⟩
    · rw [Bool.not_eq_true] at ha
      rw [show collapseWs (a :: b :: rest) = a :: collapseWs (b :: rest) from by
        simp [collapseWs, ha]] at h
      rcases List.mem_cons.mp h with h1 | h1
      · rw [h1]
        exact Or.inr ⟨List.mem_cons_self a (b :: rest), ha⟩
      · rcases mem_collapseWs (b :: rest) c h1 with h2 | ⟨h3, h4⟩
        · exact Or.inl h2
        · exact Or.inr ⟨List.mem_cons_of_mem a h3, h4⟩

theorem noTwoSpaces_collapseWs : ∀ l : List Char, noTwoSpaces (collapseWs l) = true
  | [] => rfl
  | [a] => by
    by_cases ha : isSpacePy a = true
    · rw [show collapseWs [a] = [' '] from by simp [collapseWs, ha]]
      rfl
    · rw [Bool.not_eq_true] at ha
      rw [show collapseWs [a] = [a] from by simp [collapseWs, ha]]
      rfl
  | a :: b :: rest => by
    by_cases ha : isSpacePy a = true
    · by_cases hb : isSpacePy b = true
      · rw [show collapseWs (a :: b :: rest) = collapseWs (b :: rest) from by
          simp [collapseWs, ha, hb]]
        exact noTwoSpaces_collapseWs (b :: rest)
      · rw [Bool.not_eq_true] at hb
        rw [show collapseWs (a :: b :: rest) = ' ' :: collapseWs (b :: rest) from by
          simp [collapseWs, ha, hb]]
        obtain ⟨m, hm⟩ := collapseWs_cons_not_space b rest hb
        rw [hm]
        have h2 := noTwoSpaces_collapseWs (b :: rest)
        rw [hm] at h2
        show ((!(isSpacePy ' ' && isSpacePy b)) && noTwoSpaces (b :: m)) = true
        rw [hb, h2]
        rfl
    · rw [Bool.not_eq_true] at ha
      rw [show collapseWs (a :: b :: rest) = a :: collapseWs (b :: rest) from by
        simp [collapseWs, ha]]
      have h2 := noTwoSpaces_collapseWs (b :: rest)
      cases hcb : collapseWs (b :: rest) with
      | nil => rfl
      | cons x xs =>
        rw [hcb] at h2
        show ((!(isSpacePy a && isSpacePy x)) && noTwoSpaces (x :: xs)) = true
        rw [ha, h2]
        rfl

theorem collapseWs_eq_self : ∀ l : List Char,
    (∀ c ∈ l, isSpacePy c = true → c = ' ') → noTwoSpaces l = true → collapseWs l = l
  | [] => by
    intro _ _
    rfl
  | [a] => by
    intro h1 _
    by_cases ha : isSpacePy a = true
    · have := h1 a (List.mem_singleton.mpr rfl) ha
      subst this
      simp [collapseWs]
    · rw [Bool.not_eq_true] at ha
      simp [collapseWs, ha]
  | a :: b :: rest => by
    intro h1 h2
    have h2' : ((!(isSpacePy a && isSpacePy b)) && noTwoSpaces (b :: rest)) = true := h2
    rw [Bool.and_eq_true] at h2'
    obtain ⟨hab, hrest⟩ := h2'
    have hrec := collapseWs_eq_self (b :: rest)
      (fun c hc hsp => h1 c (List.mem_cons_of_mem a hc) hsp) hrest
    by_cases ha : isSpacePy a = true
    · have hb : isSpacePy b = false := by
        rw [Bool.not_eq_true'] at hab
        rw [ha] at hab
        simpa using hab
      have ha' : a = ' ' := h1 a (List.mem_cons_self a (b :: rest)) ha
      rw [show collapseWs (a :: b :: rest) = ' ' :: collapseWs (b :: rest) from by
        simp [collapseWs, ha, hb]]
      rw [hrec, ha']
    · rw [Bool.not_eq_true] at ha
      rw [show collapseWs (a :: b :: rest) = a :: collapseWs (b :: rest) from by
        simp [collapseWs, ha]]
      rw [hrec]

theorem noTwoSpaces_tail (a : Char) (t : List Char) (h : noTwoSpaces (a :: t) = true) :
    noTwoSpaces t = true := by
  cases t with
  | nil => rfl
  | cons b bs =>
    have h' : ((!(isSpacePy a && isSpacePy b)) && noTwoSpaces (b :: bs)) = true := h
    rw [Bool.and_eq_true] at h'
    exact h'.2

theorem noTwoSpaces_dropWhile (p : Char → Bool) : ∀ l : List Char,
    noTwoSpaces l = true → noTwoSpaces (l.dropWhile p) = true
  | [] => fun _ => rfl
  | a :: t => by
    intro h
    rw [List.dropWhile_cons]
    by_cases hp : p a = true
    · rw [hp]
      simp only [if_true]
      exact noTwoSpaces_dropWhile p t (noTwoSpaces_tail a t h)
    · rw [Bool.not_eq_true] at hp
      rw [hp]
      simpa using h

theorem trimEnd_append_decomp : ∀ l : List Char, ∃ t, l = trimEnd l ++ t
  | [] => ⟨[], rfl⟩
  | c :: cs => by
    obtain ⟨t, ht⟩ := trimEnd_append_decomp cs
    cases h : trimEnd cs with
    | nil =>
      by_cases hc : isSpacePy c = true
      · refine ⟨c :: cs, ?_⟩
        rw [show trimEnd (c :: cs) = [] from by simp [trimEnd, h, hc]]
        rfl
      · rw [Bool.not_eq_true] at hc
        refine ⟨cs, ?_⟩
        rw [show trimEnd (c :: cs) = [c] from by simp [trimEnd, h, hc]]
        rfl
    | cons x xs =>
      rw [h] at ht
      refine ⟨t, ?_⟩
      rw [show trimEnd (c :: cs) = c :: x :: xs from by simp [trimEnd, h]]
      rw [List.cons_append, ← ht]

theorem noTwoSpaces_append_left : ∀ s t : List Char,
    noTwoSpaces (s ++ t) = true → noTwoSpaces s = true
  | [], _ => fun _ => rfl
  | [_], _ => fun _ => rfl
  | a :: b :: s', t => by
    intro h
    have h' : ((!(isSpacePy a && isSpacePy b)) && noTwoSpaces (b :: (s' ++ t))) = true := h
    rw [Bool.and_eq_true] at h'
    show ((!(isSpacePy a && isSpacePy b)) && noTwoSpaces (b :: s')) = true
    rw [Bool.and_eq_true]
    exact ⟨h'.1, noTwoSpaces_append_left (b :: s') t h'.2⟩

theorem noTwoSpaces_stripPy (l : List Char) (h : noTwoSpaces l = true) :
    noTwoSpaces (stripPy l) = true := by
  unfold stripPy
  have h1 := noTwoSpaces_dropWhile isSpacePy l h
  obtain ⟨t, ht⟩ := trimEnd_append_decomp (l.dropWhile isSpacePy)
  refine noTwoSpaces_append_left _ t ?_
  rw [← ht]
  exact h1

theorem mem_stripPy (l : List Char) (c : Char) (h : c ∈ stripPy l) : c ∈ l := by
  unfold stripPy at h
  obtain ⟨t, ht⟩ := trimEnd_append_decomp (l.dropWhile isSpacePy)
  have h2 : c ∈ l.dropWhile isSpacePy := by
    rw [ht]
    exact List.mem_append_left t h
  exact (List.dropWhile_sublist isSpacePy).subset h2

theorem mem_nfkdL : ∀ (l : List Char), ∀ c ∈ nfkdL l, ∃ d ∈ l, c ∈ nfkdChar d
  | [] => by
    intro c h
    simp [nfkdL] at h
  | d :: ds => by
    intro c h
    rw [show nfkdL (d :: ds) = nfkdChar d ++ nfkdL ds from rfl] at h
    rcases List.mem_append.mp h with h1 | h1
    · exact ⟨d, List.mem_cons_self d ds, h1⟩
    · obtain ⟨e, he, hc⟩ := mem_nfkdL ds c h1
      exact ⟨e, List.mem_cons_of_mem d he, hc⟩

theorem nfkdL_eq_self (l : List Char) (h : ∀ c ∈ l, nfkdChar c = [c]) :
    nfkdL l = l := by
  induction l with
  | nil => rfl
  | cons c cs ih =>
    rw [show nfkdL (c :: cs) = nfkdChar c ++ nfkdL cs from rfl,
      h c (List.mem_cons_self c cs),
      ih (fun x hx => h x (List.mem_cons_of_mem c hx))]
    rfl

theorem normalizeL_char_good (l : List Char) (c : Char) (h : c ∈ normalizeL l) :
    toLowerPy c = c ∧ nfkdChar c = [c] ∧ allowedChar c = true
      ∧ (isSpacePy c = true → c = ' ') := by
  unfold normalizeL at h
  rcases mem_collapseWs _ c h with rfl | ⟨h1, h2⟩
  · exact ⟨by decide, by decide, by decide, fun _ => rfl⟩
  · obtain ⟨h4, h5⟩ := List.mem_filter.mp h1
    obtain ⟨e, he, hc⟩ := mem_nfkdL _ c h4
    obtain ⟨e0, _, rfl⟩ := List.mem_map.mp he
    obtain ⟨hl, hn⟩ := stable_of_nfkd_lower e0 c hc h5
    refine ⟨hl, hn, h5, fun hsp => ?_⟩
    rw [h2] at hsp
    exact absurd hsp Bool.false_ne_true

theorem normalizeL_normalizeL (l : List Char) :
    normalizeL (normalizeL l) = stripPy (normalizeL l) := by
  have hsub : ∀ c ∈ stripPy (normalizeL l),
      toLowerPy c = c ∧ nfkdChar c = [c] ∧ allowedChar c = true
        ∧ (isSpacePy c = true → c = ' ') :=
    fun c hc => normalizeL_char_good l c (mem_stripPy _ c hc)
  show collapseWs ((nfkdL ((stripPy (normalizeL l)).map toLowerPy)).filter allowedChar)
      = stripPy (normalizeL l)
  rw [map_id_of_mem _ (fun c hc => (hsub c hc).1)]
  rw [nfkdL_eq_self _ (fun c hc => (hsub c hc).2.1)]
  rw [List.filter_eq_self.mpr (fun c hc => (hsub c hc).2.2.1)]
  exact collapseWs_eq_self _ (fun c hc => (hsub c hc).2.2.2)
    (noTwoSpaces_stripPy _ (by unfold normalizeL; exact noTwoSpaces_collapseWs _))

/-- C7: the claim that normalization is idempotent on every string is false:
normalizing the string with a letter, a space and an exclamation mark leaves
a trailing space, which a second normalization removes. -/
theorem c7_counterexample :
    normalize_text (normalize_text "a !") ≠ normalize_text "a !" := by decide

/-- C7 amended: a second normalization differs from the first only by the
surrounding-whitespace trim: removing a punctuation character at an end of
the string can leave a single leading or trailing space in the output, and
renormalizing strips exactly that, so normalize composed with itself equals
trim composed with normalize, and idempotence holds exactly for inputs whose
normal form carries no such edge space. -/
theorem c7_amended (s : String) :
    normalize_text (normalize_text s) = strip_string (normalize_text s) :=
  congrArg (fun l => (⟨l⟩ : String)) (normalizeL_normalizeL s.data)

end Wortschatz
